import Mathlib

/-!
Verification of the download utility module
(`src/main/services/download/utils.ts`): `debounce`,
`getAvailableDiskSpace`, `getDirectorySize`, `formatBytes` and
`parseSizeToBytes`, shallowly embedded in Lean 4.

Modelling conventions:
* JavaScript numbers are modelled by `JSNum`: a rational together with a
  `NaN` point.  Every arithmetic operation the module performs on numbers
  (division by 1024, multiplication by powers of 1024, `parseFloat` of a
  digits-and-dots token, comparison with 1024) is exact on IEEE doubles in
  the ranges exercised here, so the rational model is faithful.
* `toFixed(1)` is modelled by its ECMAScript definition: pick the integer
  `n` minimising `|n / 10 - x|`, ties to the larger `n`, applied to the
  absolute value, with a leading minus sign for negative inputs, and
  `"NaN"` for `NaN`.
* `console.warn` calls are modelled by a returned list of `SizeWarn`
  values (one constructor per distinct warning site).
* The filesystem seen by `getDirectorySize` is an inductive tree
  (`FSEntry`), with explicit constructors for a directory whose `readdir`
  fails and a regular file whose `stat` fails; `statfs` results for
  `getAvailableDiskSpace` are an `Except`.
* The debounce timer is a discrete-event machine: the closure state is the
  pending `(fireTime, args)` pair, wrapper calls arrive as a time-stamped
  list, and a pending timer fires when its deadline is reached before the
  next wrapper call.
-/

/-- A JavaScript number: a rational value or `NaN`.  Infinities are not
needed by the claims under verification. -/
inductive JSNum where
  | num : ℚ → JSNum
  | nan : JSNum
deriving DecidableEq, Repr

namespace JSNum

/-- JavaScript `x >= c` for a numeric literal `c` (`false` on `NaN`). -/
def jge (x : JSNum) (c : ℚ) : Bool :=
  match x with
  | num q => decide (c ≤ q)
  | nan => false

/-- JavaScript `x / 1024` (exact on doubles: an exponent shift). -/
def div1024 (x : JSNum) : JSNum :=
  match x with
  | num q => num (q / 1024)
  | nan => nan

end JSNum

/-- The integer chosen by ECMAScript `toFixed(1)` for a non-negative real
`x`: the `n` with `n / 10` closest to `x`, ties to the larger `n`. -/
def toFixed1Int (x : ℚ) : ℕ :=
  (Int.floor (x * 10 + 1 / 2)).toNat

/-- ECMAScript `toFixed(1)` on a rational: if the value is negative the
sign is emitted and the value negated, then the chosen integer is
rendered with one digit after the decimal point. -/
def ratToFixed1 (q : ℚ) : String :=
  let sign := if q < 0 then "-" else ""
  let x := if q < 0 then -q else q
  let n := toFixed1Int x
  sign ++ toString (n / 10) ++ "." ++ toString (n % 10)

/-- `toFixed(1)` on a JavaScript number (`"NaN"` for `NaN`). -/
def jsToFixed1 (x : JSNum) : String :=
  match x with
  | JSNum.num q => ratToFixed1 q
  | JSNum.nan => "NaN"

/-- The `units` array of `formatBytes`. -/
def unitsList : List String := ["B", "KB", "MB", "GB", "TB"]

/-- Default string used for an (unreachable) out-of-range units lookup. -/
def noUnit : String := ""

/-- The `while (size >= 1024 && unitIndex < units.length - 1)` loop of
`formatBytes`, structurally recursive on the remaining iteration budget
`4 - unitIndex` (the guard `unitIndex < units.length - 1` is exactly
`fuel > 0`). -/
def formatBytesGo : ℕ → JSNum → ℕ → JSNum × ℕ
  | 0, size, unitIndex => (size, unitIndex)
  | fuel + 1, size, unitIndex =>
    if size.jge 1024 then
      formatBytesGo fuel size.div1024 (unitIndex + 1)
    else
      (size, unitIndex)

/-- The `formatBytes` scaling loop started at `unitIndex`, returning the
final `size` and `unitIndex`. -/
def formatBytesAux (size : JSNum) (unitIndex : ℕ) : JSNum × ℕ :=
  formatBytesGo (4 - unitIndex) size unitIndex

/-- `formatBytes` from `utils.ts`: scale by 1024 while possible, then
render with one decimal digit and the chosen unit. -/
def formatBytes (bytes : JSNum) : String :=
  let r := formatBytesAux bytes 0
  jsToFixed1 r.1 ++ " " ++ unitsList.getD r.2 noUnit

/-- Invariant of the `formatBytes` scaling loop: starting with fuel `n` at
`unitIndex = i`, it performs some `k ≤ n` divisions, every intermediate
value was at least 1024, and the loop only stops early once the value
drops below 1024. -/
lemma formatBytesGo_num_spec :
    ∀ (n i : ℕ) (b : ℚ), ∃ k, k ≤ n ∧
      formatBytesGo n (JSNum.num b) i = (JSNum.num (b / 1024 ^ k), i + k) ∧
      (k < n → b / 1024 ^ k < 1024) ∧
      (∀ j, j < k → 1024 ≤ b / 1024 ^ j) := by
  intro n
  induction n with
  | zero =>
    intro i b
    refine ⟨0, le_refl 0, ?_, ?_, ?_⟩
    · simp [formatBytesGo]
    · intro h; omega
    · intro j hj; omega
  | succ n ih =>
    intro i b
    by_cases hb : (1024 : ℚ) ≤ b
    · obtain ⟨k, hk, heq, hstop, hge⟩ := ih (i + 1) (b / 1024)
      refine ⟨k + 1, by omega, ?_, ?_, ?_⟩
      · have hcond : (JSNum.num b).jge 1024 = true := by
          simp [JSNum.jge, hb]
        have hdiv : b / 1024 / 1024 ^ k = b / 1024 ^ (k + 1) := by
          rw [div_div, ← pow_succ']
        rw [formatBytesGo, if_pos hcond]
        simp only [JSNum.div1024]
        rw [heq, hdiv]
        have hidx : i + 1 + k = i + (k + 1) := by omega
        rw [hidx]
      · intro hlt
        have := hstop (by omega)
        rwa [div_div, ← pow_succ'] at this
      · intro j hj
        cases j with
        | zero => simpa using hb
        | succ j =>
          have := hge j (by omega)
          rwa [div_div, ← pow_succ'] at this
    · refine ⟨0, by omega, ?_, ?_, ?_⟩
      · have hcond : ¬((JSNum.num b).jge 1024 = true) := by
          simp [JSNum.jge, hb]
        rw [formatBytesGo, if_neg hcond]
        simp
      · intro _
        simpa using lt_of_not_le hb
      · intro j hj; omega

/-- Characterization of the full `formatBytes` loop on a numeric input:
the chosen unit index `k` is at most 4, the returned size is
`b / 1024 ^ k`, if a larger unit remained then the size is below 1024,
and every skipped unit saw a value of at least 1024. -/
lemma formatBytesAux_num_spec (b : ℚ) : ∃ k, k ≤ 4 ∧
    formatBytesAux (JSNum.num b) 0 = (JSNum.num (b / 1024 ^ k), k) ∧
    (k < 4 → b / 1024 ^ k < 1024) ∧
    (∀ j, j < k → 1024 ≤ b / 1024 ^ j) := by
  obtain ⟨k, hk, heq, hstop, hge⟩ := formatBytesGo_num_spec 4 0 b
  exact ⟨k, hk, by simpa [formatBytesAux] using heq, hstop, hge⟩

/-- Each step of the scaling loop increments `unitIndex` by exactly one,
so the final index is bounded by the starting index plus the fuel. -/
lemma formatBytesGo_index_le :
    ∀ (n : ℕ) (x : JSNum) (i : ℕ), (formatBytesGo n x i).2 ≤ i + n := by
  intro n
  induction n with
  | zero => intro x i; simp [formatBytesGo]
  | succ n ih =>
    intro x i
    rw [formatBytesGo]
    by_cases hc : x.jge 1024 = true
    · rw [if_pos hc]
      have := ih x.div1024 (i + 1)
      omega
    · rw [if_neg hc]
      simp

/-- C1: for every non-negative rational byte count `b`, `formatBytes`
renders `b / 1024 ^ k` with one digit after the decimal point followed by
the `k`-th unit, where `k ≤ 4` is the largest unit index with
`b / 1024 ^ k ≥ 1` (capped at TB, and defaulting to `B` when `b < 1`);
in particular `formatBytes 0 = "0.0 B"`, `formatBytes 1536 = "1.5 KB"`
and `formatBytes 1610612736 = "1.5 GB"`. -/
theorem formatBytes_unit_choice :
    (∀ b : ℚ, 0 ≤ b → ∃ k, k ≤ 4 ∧
      formatBytes (JSNum.num b) = ratToFixed1 (b / 1024 ^ k) ++ " " ++ unitsList.getD k noUnit ∧
      (∀ j, j ≤ 4 → 1 ≤ b / 1024 ^ j → j ≤ k) ∧
      (1 ≤ b → 1 ≤ b / 1024 ^ k) ∧
      (b < 1 → k = 0)) ∧
    formatBytes (JSNum.num 0) = "0.0 B" ∧
    formatBytes (JSNum.num 1536) = "1.5 KB" ∧
    formatBytes (JSNum.num 1610612736) = "1.5 GB" := by
  refine ⟨?_, ?_, ?_, ?_⟩
  · intro b hb
    obtain ⟨k, hk, heq, hstop, hge⟩ := formatBytesAux_num_spec b
    refine ⟨k, hk, ?_, ?_, ?_, ?_⟩
    · simp only [formatBytes, heq, jsToFixed1]
    · intro j hj4 hj1
      by_contra hjk
      have hkj : k + 1 ≤ j := by omega
      have hk4 : k < 4 := by omega
      have hblt : b < 1024 ^ (k + 1) := by
        have := hstop hk4
        rw [div_lt_iff₀ (by positivity)] at this
        rwa [← pow_succ'] at this
      have hble : (1024 : ℚ) ^ j ≤ b := by
        rw [le_div_iff₀ (by positivity), one_mul] at hj1
        exact hj1
      have hpow : (1024 : ℚ) ^ (k + 1) ≤ 1024 ^ j :=
        pow_le_pow_right₀ (by norm_num) hkj
      linarith
    · intro hb1
      cases k with
      | zero => simpa using hb1
      | succ m =>
        have hm := hge m (by omega)
        rw [le_div_iff₀ (by positivity)] at hm
        rw [le_div_iff₀ (by positivity), one_mul, pow_succ]
        have hcomm : (1024 : ℚ) ^ m * 1024 = 1024 * 1024 ^ m := by ring
        rw [hcomm]
        exact hm
    · intro hb1
      by_contra hk0
      have h0 := hge 0 (by omega)
      simp at h0
      linarith
  · have hfl : Int.floor ((0 : ℚ) * 10 + 1 / 2) = 0 := by
      rw [Int.floor_eq_iff] <;> norm_num
    simp only [formatBytes, formatBytesAux, formatBytesGo, JSNum.jge, JSNum.div1024,
      jsToFixed1, ratToFixed1, toFixed1Int]
    norm_num [hfl, unitsList]
    decide
  · have hdiv : (1536 : ℚ) / 1024 = 3 / 2 := by norm_num
    have hfl : Int.floor ((3 / 2 : ℚ) * 10 + 1 / 2) = 15 := by
      rw [Int.floor_eq_iff] <;> norm_num
    simp only [formatBytes, formatBytesAux, formatBytesGo, JSNum.jge, JSNum.div1024, hdiv,
      jsToFixed1, ratToFixed1, toFixed1Int]
    norm_num [hfl, unitsList]
    decide
  · have hdiv1 : (1610612736 : ℚ) / 1024 = 1572864 := by norm_num
    have hdiv2 : (1572864 : ℚ) / 1024 = 1536 := by norm_num
    have hdiv3 : (1536 : ℚ) / 1024 = 3 / 2 := by norm_num
    have hfl : Int.floor ((3 / 2 : ℚ) * 10 + 1 / 2) = 15 := by
      rw [Int.floor_eq_iff] <;> norm_num
    simp only [formatBytes, formatBytesAux, formatBytesGo, JSNum.jge, JSNum.div1024,
      hdiv1, hdiv2, hdiv3, jsToFixed1, ratToFixed1, toFixed1Int]
    norm_num [hfl, unitsList]
    decide

/-- Witness for C1 at the concrete input 1536. -/
theorem formatBytes_unit_choice_witness :
    0 ≤ (1536 : ℚ) ∧ (∃ k, k ≤ 4 ∧
      formatBytes (JSNum.num 1536) =
        ratToFixed1 ((1536 : ℚ) / 1024 ^ k) ++ " " ++ unitsList.getD k noUnit ∧
      (∀ j, j ≤ 4 → 1 ≤ (1536 : ℚ) / 1024 ^ j → j ≤ k) ∧
      (1 ≤ (1536 : ℚ) → 1 ≤ (1536 : ℚ) / 1024 ^ k) ∧
      ((1536 : ℚ) < 1 → k = 0)) :=
  ⟨by norm_num, formatBytes_unit_choice.1 1536 (by norm_num)⟩

/-- C10: `formatBytes` is total on every JavaScript number.  The scaling
loop increments `unitIndex` each iteration and is guarded by
`unitIndex < 4`, so the final unit index (= iteration count from 0) is at
most 4; and for any input on which `size >= 1024` does not hold — all
values below 1024, negative values, and `NaN` — the loop body never runs
and the result is the input rendered by `toFixed(1)` followed by
`" B"`. -/
theorem formatBytes_total :
    (∀ x : JSNum, (formatBytesAux x 0).2 ≤ 4) ∧
    (∀ q : ℚ, q < 1024 → formatBytes (JSNum.num q) = ratToFixed1 q ++ " B") ∧
    formatBytes JSNum.nan = jsToFixed1 JSNum.nan ++ " B" ∧
    formatBytes JSNum.nan = "NaN B" ∧
    formatBytes (JSNum.num (-5)) = "-5.0 B" := by
  have hnan : formatBytes JSNum.nan = "NaN B" := by
    have hcond : ¬(JSNum.nan.jge 1024 = true) := by simp [JSNum.jge]
    simp only [formatBytes, formatBytesAux]
    rw [formatBytesGo, if_neg hcond]
    simp [jsToFixed1, unitsList]
  have hsmall : ∀ q : ℚ, q < 1024 → formatBytes (JSNum.num q) = ratToFixed1 q ++ " B" := by
    intro q hq
    have hcond : ¬((JSNum.num q).jge 1024 = true) := by
      simp [JSNum.jge, not_le, hq]
    simp only [formatBytes, formatBytesAux]
    rw [formatBytesGo, if_neg hcond]
    simp only [jsToFixed1, unitsList, List.getD]
    rw [String.append_assoc]
    rfl
  refine ⟨?_, hsmall, ?_, hnan, ?_⟩
  · intro x
    have := formatBytesGo_index_le 4 x 0
    simpa [formatBytesAux] using this
  · rw [hnan]
    simp [jsToFixed1]
  · rw [hsmall (-5) (by norm_num)]
    have hfl : Int.floor ((5 : ℚ) * 10 + 1 / 2) = 50 := by
      rw [Int.floor_eq_iff] <;> norm_num
    simp only [ratToFixed1, toFixed1Int]
    norm_num [hfl]
    decide

/-- Witness for C10 at the concrete input `-5` (below 1024). -/
theorem formatBytes_total_witness :
    (-5 : ℚ) < 1024 ∧ formatBytes (JSNum.num (-5)) = ratToFixed1 (-5) ++ " B" :=
  ⟨by norm_num, formatBytes_total.2.1 (-5) (by norm_num)⟩

/-- The whitespace class recognised by JavaScript `trim` and `\s`
(ASCII portion, which is all the size strings here can contain). -/
def jsWS (c : Char) : Bool :=
  c = ' ' || c = '\t' || c = '\n' || c = '\r' || c = '\x0b' || c = '\x0c'

/-- JavaScript `String.prototype.trim`: drop whitespace from both ends. -/
def jsTrim (l : List Char) : List Char :=
  ((l.dropWhile jsWS).reverse.dropWhile jsWS).reverse

/-- JavaScript `String.prototype.toLowerCase` (ASCII behaviour). -/
def jsToLower (l : List Char) : List Char :=
  l.map Char.toLower

/-- The character class `[\d.]` of the size regex. -/
def isDigitDot (c : Char) : Bool :=
  c.isDigit || c = '.'

/-- Matching the anchored regex `^([\d.]+)\s*(mb|gb|kb|b)$`: a nonempty
run of digits and dots, optional whitespace, then exactly one of the four
unit tokens.  Because the three character classes are disjoint the match
is deterministic: group 1 is the maximal `[\d.]` prefix, and after
skipping whitespace the remainder must be exactly the unit. -/
def matchSize (l : List Char) : Option (List Char × List Char) :=
  let numTok := l.takeWhile isDigitDot
  let rest := (l.dropWhile isDigitDot).dropWhile jsWS
  if numTok = [] then none
  else if rest = ['m', 'b'] || rest = ['g', 'b'] || rest = ['k', 'b'] || rest = ['b'] then
    some (numTok, rest)
  else none

/-- Numeric value of a digit run (most significant first). -/
def digitsToNat (l : List Char) : ℕ :=
  l.foldl (fun a c => 10 * a + (c.toNat - 48)) 0

/-- JavaScript `parseFloat` restricted to the tokens `[\d.]+` the regex
can capture: the longest prefix of the form `digits`, `digits.digits`,
`digits.` or `.digits` is converted; `none` models `NaN` (no digit before
a second dot and none after the first, e.g. `"."` or `".."`). -/
def jsParseFloat (l : List Char) : Option ℚ :=
  let ip := l.takeWhile Char.isDigit
  let rest := l.dropWhile Char.isDigit
  if rest.head? = some '.' then
    let fp := rest.tail.takeWhile Char.isDigit
    if ip = [] ∧ fp = [] then none
    else some ((digitsToNat ip : ℚ) + (digitsToNat fp : ℚ) / (10 : ℚ) ^ fp.length)
  else if ip = [] then none else some ((digitsToNat ip : ℚ))

/-- One value per `console.warn` site in `parseSizeToBytes`. -/
inductive SizeWarn where
  | couldNotParse : SizeWarn
  | invalidNumber : SizeWarn
  | unknownUnit : SizeWarn
deriving DecidableEq, Repr

/-- `parseSizeToBytes` from `utils.ts`.  The input is `none` for a
non-string runtime value (`null`, `undefined`, a number) and
`some chars` for a string; the result pairs the returned number with the
list of warnings logged.  Mirrors the source: falsy/non-string check,
trim + lowercase, regex match, `parseFloat`, `isNaN` check, then the
unit switch. -/
def parseSizeToBytes (input : Option (List Char)) : ℚ × List SizeWarn :=
  match input with
  | none => (0, [])
  | some s =>
    if s = [] then (0, [])
    else
      let trimmed := jsToLower (jsTrim s)
      match matchSize trimmed with
      | none => (0, [SizeWarn.couldNotParse])
      | some (numStr, unit) =>
        match jsParseFloat numStr with
        | none => (0, [SizeWarn.invalidNumber])
        | some num =>
          if unit = ['b'] then (num, [])
          else if unit = ['k', 'b'] then (num * 1024, [])
          else if unit = ['m', 'b'] then (num * 1024 * 1024, [])
          else if unit = ['g', 'b'] then (num * 1024 * 1024 * 1024, [])
          else (0, [SizeWarn.unknownUnit])

/-- `takeWhile` over an append stops exactly at the boundary when every
left element satisfies the predicate and the first right element (if any)
does not. -/
lemma takeWhile_append_boundary (p : Char → Bool) :
    ∀ (l1 l2 : List Char), (∀ c ∈ l1, p c = true) →
      (∀ c t, l2 = c :: t → p c = false) →
      (l1 ++ l2).takeWhile p = l1 := by
  intro l1
  induction l1 with
  | nil =>
    intro l2 _ h2
    cases l2 with
    | nil => rfl
    | cons c t => simp [List.takeWhile, h2 c t rfl]
  | cons a l1 ih =>
    intro l2 h1 h2
    have ha : p a = true := h1 a (List.mem_cons_self a l1)
    simp only [List.cons_append, List.takeWhile, ha]
    exact congrArg (List.cons a) (ih l2 (fun c hc => h1 c (List.mem_cons_of_mem a hc)) h2)

/-- `dropWhile` over an append drops exactly the left part under the same
boundary conditions. -/
lemma dropWhile_append_boundary (p : Char → Bool) :
    ∀ (l1 l2 : List Char), (∀ c ∈ l1, p c = true) →
      (∀ c t, l2 = c :: t → p c = false) →
      (l1 ++ l2).dropWhile p = l2 := by
  intro l1
  induction l1 with
  | nil =>
    intro l2 _ h2
    cases l2 with
    | nil => rfl
    | cons c t => simp [List.dropWhile, h2 c t rfl]
  | cons a l1 ih =>
    intro l2 h1 h2
    have ha : p a = true := h1 a (List.mem_cons_self a l1)
    simp only [List.cons_append, List.dropWhile, ha]
    exact ih l2 (fun c hc => h1 c (List.mem_cons_of_mem a hc)) h2

/-- Whitespace characters are not in the `[\d.]` class. -/
lemma jsWS_not_digitDot (c : Char) (h : jsWS c = true) : isDigitDot c = false := by
  simp only [jsWS, Bool.or_eq_true, decide_eq_true_eq] at h
  rcases h with ((((h | h) | h) | h) | h) | h <;> subst h <;> decide

/-- The unit multiplier table of the spec: `b`, `kb`, `mb`, `gb` map to
1, 1024, 1024², 1024³; anything else is not a unit. -/
def unitMult (u : List Char) : Option ℚ :=
  if u = ['b'] then some 1
  else if u = ['k', 'b'] then some 1024
  else if u = ['m', 'b'] then some (1024 * 1024)
  else if u = ['g', 'b'] then some (1024 * 1024 * 1024)
  else none

/-- A token recognised by `unitMult` is one of the four unit spellings. -/
lemma unitMult_cases (u : List Char) (m : ℚ) (h : unitMult u = some m) :
    u = ['b'] ∨ u = ['k', 'b'] ∨ u = ['m', 'b'] ∨ u = ['g', 'b'] := by
  simp only [unitMult] at h
  by_cases h1 : u = ['b']
  · exact Or.inl h1
  rw [if_neg h1] at h
  by_cases h2 : u = ['k', 'b']
  · exact Or.inr (Or.inl h2)
  rw [if_neg h2] at h
  by_cases h3 : u = ['m', 'b']
  · exact Or.inr (Or.inr (Or.inl h3))
  rw [if_neg h3] at h
  by_cases h4 : u = ['g', 'b']
  · exact Or.inr (Or.inr (Or.inr h4))
  rw [if_neg h4] at h
  exact absurd h (by simp)

/-- A recognised unit token starts with a letter outside both the `[\d.]`
class and the whitespace class. -/
lemma unitMult_head (u : List Char) (m : ℚ) (h : unitMult u = some m) :
    ∀ c t, u = c :: t → isDigitDot c = false ∧ jsWS c = false := by
  intro c t hct
  rcases unitMult_cases u m h with hu | hu | hu | hu <;>
    · subst hu
      injection hct with hc ht
      subst hc
      decide

/-- The size regex on a well-formed decomposition `num ++ sp ++ u`
(nonempty `[\d.]` token, whitespace, unit token) matches with group 1 the
numeric token and group 2 the unit. -/
lemma matchSize_decompose (num sp u : List Char) (m : ℚ)
    (hnum : num ≠ []) (hnumc : ∀ c ∈ num, isDigitDot c = true)
    (hsp : ∀ c ∈ sp, jsWS c = true) (hu : unitMult u = some m) :
    matchSize (num ++ sp ++ u) = some (num, u) := by
  have hbound1 : ∀ c t, sp ++ u = c :: t → isDigitDot c = false := by
    intro c t hct
    cases sp with
    | nil => exact (unitMult_head u m hu c t (by simpa using hct)).1
    | cons a s2 =>
      have : a = c := by
        rw [List.cons_append] at hct
        injection hct
      rw [← this]
      exact jsWS_not_digitDot a (hsp a (List.mem_cons_self a s2))
  have hbound2 : ∀ c t, u = c :: t → jsWS c = false :=
    fun c t h => (unitMult_head u m hu c t h).2
  have h1 : (num ++ (sp ++ u)).takeWhile isDigitDot = num :=
    takeWhile_append_boundary _ num (sp ++ u) hnumc hbound1
  have h2 : (num ++ (sp ++ u)).dropWhile isDigitDot = sp ++ u :=
    dropWhile_append_boundary _ num (sp ++ u) hnumc hbound1
  have h3 : (sp ++ u).dropWhile jsWS = u :=
    dropWhile_append_boundary _ sp u hsp hbound2
  rw [List.append_assoc]
  simp only [matchSize, h1, h2, h3]
  rw [if_neg hnum]
  rcases unitMult_cases u m hu with h | h | h | h <;> subst h <;> rfl

/-- `parseFloat` on a nonempty all-digit token is its integer value. -/
lemma jsParseFloat_int (ip : List Char) (h1 : ip ≠ [])
    (h2 : ∀ c ∈ ip, c.isDigit = true) :
    jsParseFloat ip = some ((digitsToNat ip : ℚ)) := by
  have ht : ip.takeWhile Char.isDigit = ip := by
    have := takeWhile_append_boundary Char.isDigit ip [] h2 (by intro c t h; cases h)
    simpa using this
  have hd : ip.dropWhile Char.isDigit = [] := by
    have := dropWhile_append_boundary Char.isDigit ip [] h2 (by intro c t h; cases h)
    simpa using this
  simp only [jsParseFloat, ht, hd]
  rw [if_neg (by simp), if_neg h1]

/-- `parseFloat` on a digit token with one decimal point and digits on at
least one side is the corresponding decimal value. -/
lemma jsParseFloat_dec (ip fp : List Char) (h0 : ip ≠ [] ∨ fp ≠ [])
    (h1 : ∀ c ∈ ip, c.isDigit = true) (h2 : ∀ c ∈ fp, c.isDigit = true) :
    jsParseFloat (ip ++ '.' :: fp) =
      some ((digitsToNat ip : ℚ) + (digitsToNat fp : ℚ) / (10 : ℚ) ^ fp.length) := by
  have hdot : ∀ c t, ('.' :: fp : List Char) = c :: t → Char.isDigit c = false := by
    intro c t hct
    have : '.' = c := by injection hct
    rw [← this]
    decide
  have ht : (ip ++ '.' :: fp).takeWhile Char.isDigit = ip :=
    takeWhile_append_boundary _ ip ('.' :: fp) h1 hdot
  have hd : (ip ++ '.' :: fp).dropWhile Char.isDigit = '.' :: fp :=
    dropWhile_append_boundary _ ip ('.' :: fp) h1 hdot
  have hfp : fp.takeWhile Char.isDigit = fp := by
    have := takeWhile_append_boundary Char.isDigit fp [] h2 (by intro c t h; cases h)
    simpa using this
  simp only [jsParseFloat, ht, hd, List.head?_cons, List.tail_cons, hfp]
  rw [if_pos trivial,
    if_neg (by rintro ⟨ha, hb⟩; rcases h0 with h | h <;> [exact h ha; exact h hb])]

/-- Evaluation of `parseSizeToBytes` when the regex matches and
`parseFloat` succeeds: the result is the number times the unit factor of
the `switch`, with no warning. -/
lemma parseSizeToBytes_success_eval (s numTok u : List Char) (q m : ℚ)
    (hne : s ≠ [])
    (hmatch : matchSize (jsToLower (jsTrim s)) = some (numTok, u))
    (hpf : jsParseFloat numTok = some q)
    (hu : unitMult u = some m) :
    parseSizeToBytes (some s) = (q * m, []) := by
  simp only [parseSizeToBytes, if_neg hne, hmatch, hpf]
  rcases unitMult_cases u m hu with h | h | h | h <;> subst h <;>
    simp only [unitMult] at hu <;> simp_all <;> rw [← hu] <;> ring_nf

/-- Evaluation of `parseSizeToBytes` when the regex does not match: 0 and
one "could not parse" warning. -/
lemma parseSizeToBytes_nomatch_eval (s : List Char) (hne : s ≠ [])
    (hmatch : matchSize (jsToLower (jsTrim s)) = none) :
    parseSizeToBytes (some s) = (0, [SizeWarn.couldNotParse]) := by
  simp only [parseSizeToBytes, if_neg hne, hmatch]

/-- Evaluation of `parseSizeToBytes` when the regex matches but
`parseFloat` yields `NaN`: 0 and one "invalid number" warning. -/
lemma parseSizeToBytes_nan_eval (s numTok u : List Char) (hne : s ≠ [])
    (hmatch : matchSize (jsToLower (jsTrim s)) = some (numTok, u))
    (hpf : jsParseFloat numTok = none) :
    parseSizeToBytes (some s) = (0, [SizeWarn.invalidNumber]) := by
  simp only [parseSizeToBytes, if_neg hne, hmatch, hpf]

/-- An all-digit token is a `[\d.]` token. -/
lemma digits_are_digitDot (l : List Char) (h : ∀ c ∈ l, c.isDigit = true) :
    ∀ c ∈ l, isDigitDot c = true := by
  intro c hc
  simp [isDigitDot, h c hc]

/-- If a trimmed-and-lowercased input decomposes as number, whitespace,
unit, then the input itself is nonempty. -/
lemma decompose_ne_nil (s num sp u : List Char) (m : ℚ)
    (hdec : jsToLower (jsTrim s) = num ++ sp ++ u) (hu : unitMult u = some m) :
    s ≠ [] := by
  intro hs
  subst hs
  have : ([] : List Char) = num ++ sp ++ u := hdec
  have hu0 : u = [] := by
    rcases List.append_eq_nil.mp this.symm with ⟨-, h2⟩
    exact h2
  subst hu0
  rcases unitMult_cases [] m hu with h | h | h | h <;> cases h

/-- C2: every trimmed input of the form "number, optional whitespace,
unit" (unit in {b, kb, mb, gb} after lowercasing) parses to the number
times 1, 1024, 1024² or 1024³ respectively — both for integer and for
decimal numbers — with no warning logged; in particular
`parseSizeToBytes "1500 MB" = 1500*1024*1024`,
`parseSizeToBytes "2.5 GB" = 2684354560` and
`parseSizeToBytes "10MB" = 10*1024*1024`. -/
theorem parseSizeToBytes_success_spec :
    (∀ (s ip sp u : List Char) (m : ℚ),
      jsToLower (jsTrim s) = ip ++ sp ++ u →
      ip ≠ [] → (∀ c ∈ ip, c.isDigit = true) → (∀ c ∈ sp, jsWS c = true) →
      unitMult u = some m →
      parseSizeToBytes (some s) = ((digitsToNat ip : ℚ) * m, [])) ∧
    (∀ (s ip fp sp u : List Char) (m : ℚ),
      jsToLower (jsTrim s) = (ip ++ '.' :: fp) ++ sp ++ u →
      (∀ c ∈ ip, c.isDigit = true) → (∀ c ∈ fp, c.isDigit = true) →
      (∀ c ∈ sp, jsWS c = true) → (ip ≠ [] ∨ fp ≠ []) →
      unitMult u = some m →
      parseSizeToBytes (some s) =
        (((digitsToNat ip : ℚ) + (digitsToNat fp : ℚ) / (10 : ℚ) ^ fp.length) * m, [])) ∧
    (parseSizeToBytes (some ("1500 MB".data))).1 = 1500 * 1024 * 1024 ∧
    (parseSizeToBytes (some ("2.5 GB".data))).1 = 2684354560 ∧
    (parseSizeToBytes (some ("10MB".data))).1 = 10 * 1024 * 1024 := by
  have hint : ∀ (s ip sp u : List Char) (m : ℚ),
      jsToLower (jsTrim s) = ip ++ sp ++ u →
      ip ≠ [] → (∀ c ∈ ip, c.isDigit = true) → (∀ c ∈ sp, jsWS c = true) →
      unitMult u = some m →
      parseSizeToBytes (some s) = ((digitsToNat ip : ℚ) * m, []) := by
    intro s ip sp u m hdec hip hipd hsp hu
    have hne := decompose_ne_nil s ip sp u m hdec hu
    have hmatch : matchSize (jsToLower (jsTrim s)) = some (ip, u) := by
      rw [hdec]
      exact matchSize_decompose ip sp u m hip (digits_are_digitDot ip hipd) hsp hu
    exact parseSizeToBytes_success_eval s ip u _ m hne hmatch (jsParseFloat_int ip hip hipd) hu
  have hdec2 : ∀ (s ip fp sp u : List Char) (m : ℚ),
      jsToLower (jsTrim s) = (ip ++ '.' :: fp) ++ sp ++ u →
      (∀ c ∈ ip, c.isDigit = true) → (∀ c ∈ fp, c.isDigit = true) →
      (∀ c ∈ sp, jsWS c = true) → (ip ≠ [] ∨ fp ≠ []) →
      unitMult u = some m →
      parseSizeToBytes (some s) =
        (((digitsToNat ip : ℚ) + (digitsToNat fp : ℚ) / (10 : ℚ) ^ fp.length) * m, []) := by
    intro s ip fp sp u m hdec hipd hfpd hsp h0 hu
    have hne := decompose_ne_nil s (ip ++ '.' :: fp) sp u m hdec hu
    have hnum : (ip ++ '.' :: fp : List Char) ≠ [] := by simp
    have hnumc : ∀ c ∈ ip ++ '.' :: fp, isDigitDot c = true := by
      intro c hc
      rcases List.mem_append.mp hc with h | h
      · exact digits_are_digitDot ip hipd c h
      · rcases List.mem_cons.mp h with h | h
        · subst h; decide
        · exact digits_are_digitDot fp hfpd c h
    have hmatch : matchSize (jsToLower (jsTrim s)) = some (ip ++ '.' :: fp, u) := by
      rw [hdec]
      exact matchSize_decompose (ip ++ '.' :: fp) sp u m hnum hnumc hsp hu
    exact parseSizeToBytes_success_eval s (ip ++ '.' :: fp) u _ m hne hmatch
      (jsParseFloat_dec ip fp h0 hipd hfpd) hu
  refine ⟨hint, hdec2, ?_, ?_, ?_⟩
  · have hd : jsToLower (jsTrim ("1500 MB".data)) =
        ("1500".data) ++ (" ".data) ++ ("mb".data) := by decide
    have := hint ("1500 MB".data) ("1500".data) (" ".data) ("mb".data) (1024 * 1024)
      hd (by decide) (by decide) (by decide) rfl
    rw [this]
    have hn : digitsToNat ("1500".data) = 1500 := by decide
    rw [hn]
    norm_num
  · have hd : jsToLower (jsTrim ("2.5 GB".data)) =
        ("2".data ++ '.' :: "5".data) ++ (" ".data) ++ ("gb".data) := by decide
    have := hdec2 ("2.5 GB".data) ("2".data) ("5".data) (" ".data) ("gb".data)
      (1024 * 1024 * 1024) hd (by decide) (by decide) (by decide) (by left; decide) rfl
    rw [this]
    have hn2 : digitsToNat ("2".data) = 2 := by decide
    have hn5 : digitsToNat ("5".data) = 5 := by decide
    have hlen : ("5".data).length = 1 := by decide
    rw [hn2, hn5, hlen]
    norm_num
  · have hd : jsToLower (jsTrim ("10MB".data)) =
        ("10".data) ++ ([] : List Char) ++ ("mb".data) := by decide
    have := hint ("10MB".data) ("10".data) ([] : List Char) ("mb".data) (1024 * 1024)
      hd (by decide) (by decide) (by simp) rfl
    rw [this]
    have hn : digitsToNat ("10".data) = 10 := by decide
    rw [hn]
    norm_num

/-- Witness for C2 at the concrete input `"1500 MB"`. -/
theorem parseSizeToBytes_success_spec_witness :
    jsToLower (jsTrim ("1500 MB".data)) = ("1500".data) ++ (" ".data) ++ ("mb".data) ∧
    parseSizeToBytes (some ("1500 MB".data)) = ((digitsToNat ("1500".data) : ℚ) * (1024 * 1024), []) :=
  ⟨by decide, parseSizeToBytes_success_spec.1 ("1500 MB".data) ("1500".data) (" ".data)
    ("mb".data) (1024 * 1024) (by decide) (by decide) (by decide) (by decide) rfl⟩

/-- Spec-side notion (C3): a "valid number (integer or decimal)" — a
nonempty token of digits with at most one decimal point and at least one
digit. -/
def specValidNumber (l : List Char) : Bool :=
  decide (l ≠ []) && l.all isDigitDot &&
    decide (l.countP (fun c => decide (c = '.')) ≤ 1) && l.any Char.isDigit

/-- A spec-valid number token is nonempty and lies in the `[\d.]`
class. -/
lemma specValidNumber_props (l : List Char) (h : specValidNumber l = true) :
    l ≠ [] ∧ ∀ c ∈ l, isDigitDot c = true := by
  simp only [specValidNumber, Bool.and_eq_true, List.all_eq_true,
    decide_eq_true_eq] at h
  exact ⟨h.1.1.1, h.1.1.2⟩

/-- C3 counterexample: `"1.2.3mb"` — whose numeric portion `"1.2.3"` is
not a valid number, so the claim requires a result of 0 — is accepted by
the regex (`[\d.]+` allows repeated dots), salvaged by `parseFloat` as
`1.2`, and parsed to `1.2 * 1024 * 1024 = 6291456 / 5 ≠ 0`. -/
theorem parseSizeToBytes_invalid_nonzero :
    (¬ ∃ (num sp u : List Char) (m : ℚ),
        jsToLower (jsTrim ("1.2.3mb".data)) = num ++ sp ++ u ∧
        specValidNumber num = true ∧ (∀ c ∈ sp, jsWS c = true) ∧
        unitMult u = some m) ∧
    (parseSizeToBytes (some ("1.2.3mb".data))).1 = 6291456 / 5 ∧
    (parseSizeToBytes (some ("1.2.3mb".data))).1 ≠ 0 := by
  have hm2 : matchSize (jsToLower (jsTrim ("1.2.3mb".data))) =
      some ("1.2.3".data, "mb".data) := by decide
  have hval : parseSizeToBytes (some ("1.2.3mb".data)) =
      ((1 + 2 / 10) * (1024 * 1024), []) := by
    have h1 : ("1.2.3".data).takeWhile Char.isDigit = "1".data := by decide
    have h2 : ("1.2.3".data).dropWhile Char.isDigit = '.' :: ("2.3".data) := by decide
    have h3 : ("2.3".data).takeWhile Char.isDigit = "2".data := by decide
    have hpf : jsParseFloat ("1.2.3".data) = some ((1 : ℚ) + 2 / 10) := by
      simp only [jsParseFloat, h1, h2, List.head?_cons, List.tail_cons, h3]
      rw [if_pos trivial, if_neg (by rintro ⟨ha, -⟩; exact absurd ha (by decide))]
      have hd1 : digitsToNat ("1".data) = 1 := by decide
      have hd2 : digitsToNat ("2".data) = 2 := by decide
      have hlen : ("2".data).length = 1 := by decide
      rw [hd1, hd2, hlen]
      norm_num
    exact parseSizeToBytes_success_eval ("1.2.3mb".data) ("1.2.3".data) ("mb".data)
      ((1 : ℚ) + 2 / 10) (1024 * 1024) (by decide) hm2 hpf rfl
  refine ⟨?_, ?_, ?_⟩
  · rintro ⟨num, sp, u, m, hdec, hv, hsp, hu⟩
    obtain ⟨hne, hdd⟩ := specValidNumber_props num hv
    have hm : matchSize (jsToLower (jsTrim ("1.2.3mb".data))) = some (num, u) := by
      rw [hdec]
      exact matchSize_decompose num sp u m hne hdd hsp hu
    rw [hm2] at hm
    have hp := Option.some.inj hm
    have hnum : ("1.2.3".data) = num := congrArg Prod.fst hp
    rw [← hnum] at hv
    exact absurd hv (by decide)
  · rw [hval]
    norm_num
  · rw [hval]
    norm_num

/-- C3 (amended): `parseSizeToBytes` is total and returns 0 whenever the
input is not a string, is the empty string, the (relaxed) regex
`^([\d.]+)\s*(mb|gb|kb|b)$` fails to match the trimmed lowercased input,
or the matched `[\d.]+` token has no parseable numeric prefix
(`parseFloat` gives `NaN`, e.g. `"."`); in particular `""`, `"abc"` and
`"10 TB"` yield 0.  (Unlike the original claim, a matched token that is
not a single valid number but has a parseable prefix, such as `"1.2.3"`,
is not rejected.) -/
theorem parseSizeToBytes_failure_zero :
    (parseSizeToBytes none).1 = 0 ∧
    (parseSizeToBytes (some [])).1 = 0 ∧
    (∀ s, s ≠ [] → matchSize (jsToLower (jsTrim s)) = none →
      parseSizeToBytes (some s) = (0, [SizeWarn.couldNotParse])) ∧
    (∀ s numTok u, s ≠ [] → matchSize (jsToLower (jsTrim s)) = some (numTok, u) →
      jsParseFloat numTok = none →
      parseSizeToBytes (some s) = (0, [SizeWarn.invalidNumber])) ∧
    (parseSizeToBytes (some ("abc".data))).1 = 0 ∧
    (parseSizeToBytes (some ("10 TB".data))).1 = 0 := by
  refine ⟨rfl, rfl, ?_, ?_, ?_, ?_⟩
  · exact parseSizeToBytes_nomatch_eval
  · exact parseSizeToBytes_nan_eval
  · rw [parseSizeToBytes_nomatch_eval ("abc".data) (by decide) (by decide)]
  · rw [parseSizeToBytes_nomatch_eval ("10 TB".data) (by decide) (by decide)]

/-- Witness for the amended C3 at the concrete input `"abc"`. -/
theorem parseSizeToBytes_failure_zero_witness :
    ("abc".data ≠ ([] : List Char)) ∧
    matchSize (jsToLower (jsTrim ("abc".data))) = none ∧
    parseSizeToBytes (some ("abc".data)) = (0, [SizeWarn.couldNotParse]) :=
  ⟨by decide, by decide,
    parseSizeToBytes_failure_zero.2.2.1 ("abc".data) (by decide) (by decide)⟩

/-- C8 counterexample: the empty string is a failing input (it returns 0)
but the early `!sizeString` return does not call `console.warn`, so no
warning is logged. -/
theorem parseSizeToBytes_empty_silent :
    parseSizeToBytes (some []) = (0, []) ∧ parseSizeToBytes none = (0, []) :=
  ⟨rfl, rfl⟩

/-- C8 (amended): failing calls of `parseSizeToBytes` log exactly one
warning in the pattern-mismatch and invalid-number cases, but the
non-string/empty-input failure returns 0 silently without logging. -/
theorem parseSizeToBytes_warning_cases :
    (parseSizeToBytes none).2 = [] ∧
    (parseSizeToBytes (some [])).2 = [] ∧
    (∀ s, s ≠ [] → matchSize (jsToLower (jsTrim s)) = none →
      (parseSizeToBytes (some s)).2 = [SizeWarn.couldNotParse]) ∧
    (∀ s numTok u, s ≠ [] → matchSize (jsToLower (jsTrim s)) = some (numTok, u) →
      jsParseFloat numTok = none →
      (parseSizeToBytes (some s)).2 = [SizeWarn.invalidNumber]) := by
  refine ⟨rfl, rfl, ?_, ?_⟩
  · intro s hne hm
    rw [parseSizeToBytes_nomatch_eval s hne hm]
  · intro s numTok u hne hm hpf
    rw [parseSizeToBytes_nan_eval s numTok u hne hm hpf]

/-- Witness for the amended C8 at the concrete input `"abc"` (pattern
mismatch) and `". b"` (invalid number). -/
theorem parseSizeToBytes_warning_cases_witness :
    (parseSizeToBytes (some ("abc".data))).2 = [SizeWarn.couldNotParse] ∧
    (parseSizeToBytes (some (". b".data))).2 = [SizeWarn.invalidNumber] :=
  ⟨parseSizeToBytes_warning_cases.2.2.1 ("abc".data) (by decide) (by decide),
    parseSizeToBytes_warning_cases.2.2.2 (". b".data) (".".data) ("b".data)
      (by decide) (by decide) (by decide)⟩

/-- Every value `parseFloat` can produce from a `[\d.]+` token is
non-negative: the token admits no sign, and both parts are digit
strings. -/
lemma jsParseFloat_nonneg (l : List Char) (q : ℚ)
    (h : jsParseFloat l = some q) : 0 ≤ q := by
  simp only [jsParseFloat] at h
  split_ifs at h
  all_goals
    first
      | exact Option.noConfusion h
      | (rw [← Option.some.inj h]; positivity)

/-- C9: `parseSizeToBytes` never returns a negative value — a successful
parse is an unsigned number times a positive multiplier, and every
failure path returns 0. -/
theorem parseSizeToBytes_nonneg :
    ∀ input : Option (List Char), 0 ≤ (parseSizeToBytes input).1 := by
  intro input
  match input with
  | none => simp [parseSizeToBytes]
  | some s =>
    by_cases hs : s = []
    · simp [parseSizeToBytes, hs]
    · rcases hm : matchSize (jsToLower (jsTrim s)) with - | ⟨numTok, u⟩
      · rw [parseSizeToBytes_nomatch_eval s hs hm]
      · rcases hp : jsParseFloat numTok with - | q
        · rw [parseSizeToBytes_nan_eval s numTok u hs hm hp]
        · have hq := jsParseFloat_nonneg numTok q hp
          simp only [parseSizeToBytes, if_neg hs, hm, hp]
          split_ifs <;>
            first
              | exact hq
              | exact mul_nonneg hq (by norm_num)
              | exact mul_nonneg (mul_nonneg hq (by norm_num)) (by norm_num)
              | exact mul_nonneg (mul_nonneg (mul_nonneg hq (by norm_num)) (by norm_num))
                  (by norm_num)
              | norm_num

/-- A filesystem entry as seen by `getDirectorySize` through
`readdir(withFileTypes)` and `stat`.  `dir` is a listable directory with
its entries, `badDir` a directory whose `readdir` throws, `file` a
regular file whose `stat` reports the given size, `badFile` a regular
file whose `stat` throws, and `other` an entry that is neither a
directory nor a regular file (symlink, device, socket). -/
inductive FSEntry where
  | dir : List FSEntry → FSEntry
  | badDir : FSEntry
  | file : ℕ → FSEntry
  | badFile : FSEntry
  | other : FSEntry

mutual

/-- Contribution of one directory entry to the loop of
`getDirectorySize`: recurse into directories (a sub-`readdir` failure is
caught there and contributes 0), add a regular file's size, skip a file
whose `stat` throws (warning logged, loop continues), skip anything
else. -/
def entrySize : FSEntry → ℕ
  | FSEntry.dir items => sumEntries items
  | FSEntry.badDir => 0
  | FSEntry.file n => n
  | FSEntry.badFile => 0
  | FSEntry.other => 0

/-- The `for (const item of items)` accumulation of `getDirectorySize`. -/
def sumEntries : List FSEntry → ℕ
  | [] => 0
  | e :: es => entrySize e + sumEntries es

end

/-- `getDirectorySize` from `utils.ts` on a path resolving to the given
entry: list the directory and accumulate; if `readdir` throws (the path
is a non-listable directory, a file, or does not exist — modelled by the
non-`dir` constructors) the catch block returns the accumulated 0. -/
def getDirectorySize : FSEntry → ℕ
  | FSEntry.dir items => sumEntries items
  | _ => 0

mutual

/-- Spec-side collection (C4): the sizes of all regular files nested at
any depth under a list of entries, as a list (summed as a multiset, so
order cannot matter). -/
def specFileSizes : FSEntry → List ℕ
  | FSEntry.dir items => specFileSizesList items
  | FSEntry.badDir => []
  | FSEntry.file n => [n]
  | FSEntry.badFile => []
  | FSEntry.other => []

/-- List version of `specFileSizes`. -/
def specFileSizesList : List FSEntry → List ℕ
  | [] => []
  | e :: es => specFileSizes e ++ specFileSizesList es

end

mutual

/-- Readability of a whole tree: every directory can be listed and every
regular file's size can be read. -/
def allReadable : FSEntry → Bool
  | FSEntry.dir items => allReadableList items
  | FSEntry.badDir => false
  | FSEntry.file _ => true
  | FSEntry.badFile => false
  | FSEntry.other => true

/-- List version of `allReadable`. -/
def allReadableList : List FSEntry → Bool
  | [] => true
  | e :: es => allReadable e && allReadableList es

end

mutual

/-- Each entry contributes exactly the sum of the sizes it holds. -/
theorem entrySize_eq_spec : ∀ e : FSEntry, entrySize e = (specFileSizes e).sum
  | FSEntry.dir items => by
    rw [entrySize, specFileSizes]
    exact sumEntries_eq_spec items
  | FSEntry.badDir => rfl
  | FSEntry.file n => by simp [entrySize, specFileSizes]
  | FSEntry.badFile => rfl
  | FSEntry.other => rfl

/-- The loop accumulation equals the sum of all collected file sizes. -/
theorem sumEntries_eq_spec : ∀ l : List FSEntry, sumEntries l = (specFileSizesList l).sum
  | [] => rfl
  | e :: es => by
    rw [sumEntries, specFileSizesList, List.sum_append, entrySize_eq_spec e,
      sumEntries_eq_spec es]

end

/-- The accumulation is the sum of the per-entry contributions. -/
lemma sumEntries_eq_map_sum : ∀ l : List FSEntry, sumEntries l = (l.map entrySize).sum
  | [] => rfl
  | e :: es => by rw [sumEntries, List.map_cons, List.sum_cons, sumEntries_eq_map_sum es]

/-- C4: on a fully readable tree, `getDirectorySize` returns the sum of
the multiset of sizes of all regular files nested at any depth (entries
that are neither directories nor regular files contribute nothing), so
the result is a pure, order-independent sum; permuting the directory
listing does not change the result, and an empty directory yields 0. -/
theorem getDirectorySize_pure_sum :
    (∀ items : List FSEntry, allReadableList items = true →
      getDirectorySize (FSEntry.dir items) =
        ((specFileSizesList items : Multiset ℕ)).sum) ∧
    (∀ items itemsPerm : List FSEntry, items.Perm itemsPerm →
      getDirectorySize (FSEntry.dir items) = getDirectorySize (FSEntry.dir itemsPerm)) ∧
    getDirectorySize (FSEntry.dir []) = 0 := by
  refine ⟨?_, ?_, rfl⟩
  · intro items _
    rw [getDirectorySize, sumEntries_eq_spec, Multiset.sum_coe]
  · intro items itemsPerm hperm
    rw [getDirectorySize, getDirectorySize, sumEntries_eq_map_sum, sumEntries_eq_map_sum]
    exact List.Perm.sum_eq (List.Perm.map entrySize hperm)

/-- Witness for C4 on the concrete tree
`[file 100, dir [file 7, other], file 1]` and a swap of its listing. -/
theorem getDirectorySize_pure_sum_witness :
    (allReadableList [FSEntry.file 100, FSEntry.dir [FSEntry.file 7, FSEntry.other],
        FSEntry.file 1] = true ∧
      getDirectorySize (FSEntry.dir [FSEntry.file 100,
        FSEntry.dir [FSEntry.file 7, FSEntry.other], FSEntry.file 1]) =
        ((specFileSizesList [FSEntry.file 100,
          FSEntry.dir [FSEntry.file 7, FSEntry.other], FSEntry.file 1] : Multiset ℕ)).sum) ∧
    getDirectorySize (FSEntry.dir [FSEntry.file 100, FSEntry.file 1]) =
      getDirectorySize (FSEntry.dir [FSEntry.file 1, FSEntry.file 100]) :=
  ⟨⟨rfl, getDirectorySize_pure_sum.1 _ rfl⟩,
    getDirectorySize_pure_sum.2.1 _ _ (List.Perm.swap _ _ _)⟩

/-- Dropping a `badFile` (a regular file whose `stat` throws) anywhere in
a listing does not change the accumulated size. -/
lemma sumEntries_skip_badFile :
    ∀ (pre post : List FSEntry),
      sumEntries (pre ++ FSEntry.badFile :: post) = sumEntries (pre ++ post) := by
  intro pre post
  induction pre with
  | nil => simp [sumEntries, entrySize]
  | cons e es ih =>
    simp only [List.cons_append, sumEntries]
    exact congrArg (fun x => entrySize e + x) ih

/-- C5: `getDirectorySize` is total (always returns a number): when the
top-level directory cannot be listed — or the path is not a listable
directory at all — it returns 0, and a regular file whose size cannot be
read is skipped while the rest of the listing is still accumulated; in
particular a directory with one unreadable file and one 100-byte file
gives 100. -/
theorem getDirectorySize_error_handling :
    getDirectorySize FSEntry.badDir = 0 ∧
    (∀ pre post : List FSEntry,
      getDirectorySize (FSEntry.dir (pre ++ FSEntry.badFile :: post)) =
        getDirectorySize (FSEntry.dir (pre ++ post))) ∧
    getDirectorySize (FSEntry.dir [FSEntry.badFile, FSEntry.file 100]) = 100 := by
  refine ⟨rfl, ?_, rfl⟩
  intro pre post
  rw [getDirectorySize, getDirectorySize]
  exact sumEntries_skip_badFile pre post

/-- The fields of the `fs.statfs` result used by
`getAvailableDiskSpace`. -/
structure StatFS where
  bavail : ℕ
  bsize : ℕ

/-- `getAvailableDiskSpace` from `utils.ts`: the `statfs` call either
succeeds with statistics or throws (path missing, permission denied,
unsupported filesystem); the catch block logs and returns `null`
(modelled as `none`). -/
def getAvailableDiskSpace (res : Except Unit StatFS) : Option ℕ :=
  match res with
  | Except.ok stats => some (stats.bavail * stats.bsize)
  | Except.error _ => none

/-- C6: `getAvailableDiskSpace` returns `bavail * bsize` whenever the
filesystem-statistics query succeeds, returns the unknown sentinel
(`null`) on any query failure, and — being a total function of the query
outcome — never propagates a fault to its caller: every outcome is
either the sentinel or a computed byte count. -/
theorem getAvailableDiskSpace_contract :
    (∀ stats : StatFS,
      getAvailableDiskSpace (Except.ok stats) = some (stats.bavail * stats.bsize)) ∧
    (∀ e : Unit, getAvailableDiskSpace (Except.error e) = none) ∧
    (∀ res : Except Unit StatFS,
      getAvailableDiskSpace res = none ∨
        ∃ stats, res = Except.ok stats ∧
          getAvailableDiskSpace res = some (stats.bavail * stats.bsize)) := by
  refine ⟨fun _ => rfl, fun _ => rfl, ?_⟩
  intro res
  match res with
  | Except.ok stats => exact Or.inr ⟨stats, rfl, rfl⟩
  | Except.error _ => exact Or.inl rfl

/-- What a pending debounce timer does when time advances to the next
wrapper call at `t`: if its deadline has arrived it fires (delivering its
stored arguments), otherwise nothing fires yet. -/
def pendingFires {α : Type} (pending : Option (ℕ × α)) (t : ℕ) : List (ℕ × α) :=
  match pending with
  | some (tf, b) => if tf ≤ t then [(tf, b)] else []
  | none => []

/-- After the last wrapper call, an uncancelled timer always fires. -/
def pendingFinal {α : Type} : Option (ℕ × α) → List (ℕ × α)
  | some p => [p]
  | none => []

/-- Discrete-event run of a wrapper produced by `debounce(func, w)`: the
closure's `timeout` state is the pending `(fireTime, args)`; each wrapper
call at time `t` first lets a due timer fire, then clears any pending
timer (`clearTimeout`) and schedules `func` with the new arguments at
`t + w` (`setTimeout`).  The result lists the `(time, args)` of every
invocation of the underlying callback. -/
def debounceRun {α : Type} (w : ℕ) : List (ℕ × α) → Option (ℕ × α) → List (ℕ × α)
  | [], pending => pendingFinal pending
  | (t, a) :: rest, pending => pendingFires pending t ++ debounceRun w rest (some (t + w, a))

/-- The firing schedule the spec describes: a call's callback runs, at
its call time plus `w` and with its arguments, exactly when no further
call arrives before that deadline (the last call always runs); every
superseded call is cancelled and never delivers its arguments. -/
def debounceFiresSpec {α : Type} (w : ℕ) : List (ℕ × α) → List (ℕ × α)
  | [] => []
  | [(t, a)] => [(t + w, a)]
  | (t, a) :: (s, b) :: rest =>
    (if t + w ≤ s then [(t + w, a)] else []) ++ debounceFiresSpec w ((s, b) :: rest)

/-- A scheduled timer behaves exactly as the spec's firing schedule for
the call that created it, by induction over the remaining calls. -/
lemma debounceRun_pending {α : Type} (w : ℕ) :
    ∀ (rest : List (ℕ × α)) (t : ℕ) (a : α),
      debounceRun w rest (some (t + w, a)) = debounceFiresSpec w ((t, a) :: rest)
  | [], _, _ => rfl
  | (s, b) :: rest, t, a => by
    rw [debounceRun, debounceFiresSpec, debounceRun_pending w rest s b]
    rfl

/-- C7: a debounced wrapper delivers the underlying callback exactly per
the trailing-edge schedule: each invocation cancels the pending timer and
re-schedules with the latest arguments, so the callback runs only for
calls not superseded within `w`, at call time plus `w`, with that call's
arguments (at most once per quiet period); in particular for calls at
times 0, 10, 20 with `w = 50` it runs exactly once, at time 70, with the
arguments of the call at time 20. -/
theorem debounce_trailing_edge :
    (∀ {α : Type} (w : ℕ) (calls : List (ℕ × α)),
      debounceRun w calls none = debounceFiresSpec w calls) ∧
    debounceRun 50 [(0, 10), (10, 20), (20, 30)] none = [(70, 30)] := by
  constructor
  · intro α w calls
    match calls with
    | [] => rfl
    | (t, a) :: rest =>
      rw [debounceRun, debounceRun_pending w rest t a]
      rfl
  · rfl
